import Mathlib

/-!
Verification of the component-tree subsystem of the binaryninja Python API
(src/python/component.py).

The Python file is a thin wrapper: every operation delegates to a core
registry through the functions named there `BNComponentGetGuid`,
`BNComponentsEqual`, `BNComponentAddFunctionReference`, and so on; the
registry itself is not part of the repository's sources.  Definitions below
whose doc comment starts with "Modelled from the spec:" embed that missing
registry from the specification's words; the `Component` structure and its
methods are embedded from src/python/component.py itself.

Functions, data variables and types live in the external analysis database
and are represented by their identities (natural numbers).  A `Func` record
carries, besides its identity, the data variables and the types its body
references: the component system treats those as opaque derived data.
-/

/-- Function handle of the external analysis database: an identity `fid`,
plus the data variables and the types the function's body references
(opaque to the component subsystem, used only by the derived queries). -/
structure Func where
  fid : Nat
  dataVars : List Nat
  typeRefs : List Nat
deriving DecidableEq

/-- Modelled from the spec: one component node as the core registry stores
it (`BNComponent`): an immutable GUID, a mutable display name, an optional
parent back-reference, the ordered list of child GUIDs and the direct
function membership references. -/
structure CompData where
  guid : Nat
  name : String
  parent : Option Nat
  children : List Nat
  funcRefs : List Nat
deriving DecidableEq

/-- Modelled from the spec: the core component registry owned by one
analysis database (the `ComponentStore`): every component node, plus the
database's function table. -/
structure CoreState where
  comps : List CompData
  funcs : List Func
deriving DecidableEq

/-- Lookup of the canonical node for a GUID in the registry. -/
def findComp (s : CoreState) (g : Nat) : Option CompData :=
  s.comps.find? (fun c => c.guid == g)

/-- Lookup of a function of the analysis database by its identity. -/
def funcById (s : CoreState) (fid : Nat) : Option Func :=
  s.funcs.find? (fun f => f.fid == fid)

/-- Pointwise update of the node with GUID `g` in the registry. -/
def updComp (s : CoreState) (g : Nat) (f : CompData → CompData) : CoreState :=
  { s with comps := s.comps.map (fun c => if c.guid == g then f c else c) }

/-- Direct children (GUIDs, in insertion order) of the node `g`. -/
def childrenOf (s : CoreState) (g : Nat) : List Nat :=
  match findComp s g with
  | some c => c.children
  | none => []

/-- Parent GUID of the node `g`, when it has one. -/
def parentOf (s : CoreState) (g : Nat) : Option Nat :=
  match findComp s g with
  | some c => c.parent
  | none => none

/-- Fuel-bounded search of `root`'s subtree (through the children lists) for
the node `g`; the search is strict, a node is not its own descendant. -/
def isDescendantFuel (s : CoreState) : Nat → Nat → Nat → Bool
  | 0, _, _ => false
  | fuel + 1, root, g =>
      (childrenOf s root).any (fun ch => ch == g || isDescendantFuel s fuel ch g)

/-- Fuel-bounded list of proper ancestors of `g`, following parent links. -/
def ancestorsFuel (s : CoreState) : Nat → Nat → List Nat
  | 0, _ => []
  | fuel + 1, g =>
      match parentOf s g with
      | none => []
      | some p => p :: ancestorsFuel s fuel p

/-- Iterated parent: the `k`-th strict ancestor of `g`, when the parent
chain is that long. -/
def iterP (s : CoreState) : Nat → Nat → Option Nat
  | 0, g => some g
  | k + 1, g =>
      match parentOf s g with
      | none => none
      | some p => iterP s k p

/-- Well-formedness of the registry: GUIDs are unique; children and
function-reference lists hold no duplicates; children and parents refer to
registered nodes; the parent and children fields are mutually consistent;
and no node is its own ancestor. -/
@[reducible] def WF (s : CoreState) : Prop :=
  (s.comps.map CompData.guid).Nodup
  ∧ (∀ c ∈ s.comps, c.children.Nodup)
  ∧ (∀ c ∈ s.comps, c.funcRefs.Nodup)
  ∧ (∀ c ∈ s.comps, ∀ ch ∈ c.children, ∃ d ∈ s.comps, d.guid = ch)
  ∧ (∀ c ∈ s.comps, ∀ p, c.parent = some p → ∃ d ∈ s.comps, d.guid = p)
  ∧ (∀ c ∈ s.comps, ∀ d ∈ s.comps, (c.guid ∈ d.children ↔ c.parent = some d.guid))
  ∧ (∀ c ∈ s.comps, c.guid ∉ ancestorsFuel s s.comps.length c.guid)

/-- Modelled from the spec: `BNComponentContainsComponent` — true iff the
second component is found anywhere in the first's subtree (recursive),
matched by identity. -/
def BNComponentContainsComponent (s : CoreState) (root g : Nat) : Bool :=
  isDescendantFuel s s.comps.length root g

/-- Modelled from the spec: `BNComponentContainsFunction` — true iff the
function is a direct member of the node (non-recursive). -/
def BNComponentContainsFunction (s : CoreState) (g fid : Nat) : Bool :=
  match findComp s g with
  | some c => c.funcRefs.contains fid
  | none => false

/-- Modelled from the spec: `BNComponentAddFunctionReference` — registers
the function as directly referenced by the node; idempotent, adding an
already-present function returns true without duplicating. -/
def BNComponentAddFunctionReference (s : CoreState) (g fid : Nat) : Bool × CoreState :=
  match findComp s g with
  | none => (false, s)
  | some c =>
      if fid ∈ c.funcRefs then (true, s)
      else (true, updComp s g (fun c0 => { c0 with funcRefs := c0.funcRefs ++ [fid] }))

/-- Modelled from the spec: `BNComponentRemoveFunctionReference` —
unregisters the function; returns false (a no-op) if it was not present. -/
def BNComponentRemoveFunctionReference (s : CoreState) (g fid : Nat) : Bool × CoreState :=
  match findComp s g with
  | none => (false, s)
  | some c =>
      if fid ∈ c.funcRefs then
        (true, updComp s g (fun c0 => { c0 with funcRefs := c0.funcRefs.filter (fun x => x != fid) }))
      else (false, s)

/-- Modelled from the spec: detaching a node from its current parent, the
first half of silent re-parenting: the node is erased from the old parent's
children and its parent back-reference is cleared. -/
def detachChild (s : CoreState) (g : Nat) : CoreState :=
  match parentOf s g with
  | none => s
  | some p =>
      updComp (updComp s p (fun c => { c with children := c.children.erase g })) g
        (fun c => { c with parent := none })

/-- State after a successful attach of `childG` under `selfG`: the child is
detached from any previous parent, appended to `selfG`'s children, and its
parent back-reference is set to `selfG`. -/
def attachState (s : CoreState) (selfG childG : Nat) : CoreState :=
  updComp
    (updComp (detachChild s childG) selfG
      (fun c => { c with children := c.children ++ [childG] }))
    childG (fun c => { c with parent := some selfG })

/-- Modelled from the spec: `BNComponentAddComponent` — attaches `childG`
under `selfG`.  Fails (returns false, no mutation) if `childG = selfG` or
`selfG` is already a descendant of `childG`; on success the child is first
detached from any previous parent, appended to `selfG`'s children, and its
parent back-reference is set to `selfG`. -/
def BNComponentAddComponent (s : CoreState) (selfG childG : Nat) : Bool × CoreState :=
  match findComp s selfG, findComp s childG with
  | some _, some _ =>
      if childG == selfG || BNComponentContainsComponent s childG selfG then (false, s)
      else (true, attachState s selfG childG)
  | _, _ => (false, s)

/-- Modelled from the spec: `BNComponentSetName` — sets the mutable display
name of the node, touching nothing else. -/
def BNComponentSetName (s : CoreState) (g : Nat) (n : String) : CoreState :=
  updComp s g (fun c => { c with name := n })

/-- Modelled from the spec: `BNComponentGetName`. -/
def BNComponentGetName (s : CoreState) (g : Nat) : String :=
  match findComp s g with
  | some c => c.name
  | none => ""

/-- Modelled from the spec: `BNComponentGetParent` — the GUID of the
containing component, when one exists. -/
def BNComponentGetParent (s : CoreState) (g : Nat) : Option Nat :=
  parentOf s g

/-- Modelled from the spec: `BNComponentGetContainedComponents` — the direct
children of the node, in insertion order. -/
def BNComponentGetContainedComponents (s : CoreState) (g : Nat) : List Nat :=
  childrenOf s g

/-- Modelled from the spec: `BNComponentGetContainedFunctions` — the direct
function members of the node. -/
def BNComponentGetContainedFunctions (s : CoreState) (g : Nat) : List Nat :=
  match findComp s g with
  | some c => c.funcRefs
  | none => []

/-- Accumulates the elements of `xs` onto `acc`, keeping first occurrences
only (the deduplicating union used by the derived-reference queries). -/
def dedupInto (acc xs : List Nat) : List Nat :=
  xs.foldl (fun a x => if x ∈ a then a else a ++ [x]) acc

/-- References contributed by one function of the database, through the
projection `proj` (its data variables or its types). -/
def funcOut (s : CoreState) (proj : Func → List Nat) (fid : Nat) : List Nat :=
  match funcById s fid with
  | some f => proj f
  | none => []

/-- Derived references of one node: the deduplicated union, over the node's
directly-owned functions, of the references selected by `proj`. -/
def directRefs (s : CoreState) (proj : Func → List Nat) (g : Nat) : List Nat :=
  match findComp s g with
  | none => []
  | some c => c.funcRefs.foldl (fun a fid => dedupInto a (funcOut s proj fid)) []

/-- Fuel-bounded list of the GUIDs of a node's subtree: the node first, then
its children's subtrees in order. -/
def subtreeFuel (s : CoreState) : Nat → Nat → List Nat
  | 0, g => [g]
  | fuel + 1, g => g :: (childrenOf s g).foldr (fun ch acc => subtreeFuel s fuel ch ++ acc) []

/-- GUIDs of the whole subtree of `g` (the node itself included). -/
def subtreeGuids (s : CoreState) (g : Nat) : List Nat :=
  subtreeFuel s s.comps.length g

/-- Derived references over a whole subtree: the deduplicated union of the
per-node derived references, walking the subtree in order. -/
def recursiveRefs (s : CoreState) (proj : Func → List Nat) (g : Nat) : List Nat :=
  (subtreeGuids s g).foldl (fun acc h => dedupInto acc (directRefs s proj h)) []

/-- Modelled from the spec: `BNComponentGetReferencedDataVariables` — data
variables referenced by the node's directly-owned functions. -/
def BNComponentGetReferencedDataVariables (s : CoreState) (g : Nat) : List Nat :=
  directRefs s Func.dataVars g

/-- Modelled from the spec: `BNComponentGetReferencedDataVariablesRecursive`
— the deduplicated union of the data variables referenced over the whole
subtree. -/
def BNComponentGetReferencedDataVariablesRecursive (s : CoreState) (g : Nat) : List Nat :=
  recursiveRefs s Func.dataVars g

/-- Modelled from the spec: `BNComponentGetReferencedTypes` — types used by
the node's directly-owned functions. -/
def BNComponentGetReferencedTypes (s : CoreState) (g : Nat) : List Nat :=
  directRefs s Func.typeRefs g

/-- Modelled from the spec: `BNComponentGetReferencedTypesRecursive` — the
deduplicated union of the types used over the whole subtree. -/
def BNComponentGetReferencedTypesRecursive (s : CoreState) (g : Nat) : List Nat :=
  recursiveRefs s Func.typeRefs g

/-- Core handle to a component, as handed to the Python wrapper: it denotes
the component with GUID `guid`; `instanceId` distinguishes separately
obtained handles to the same component (reference identity), which the
equality of the core ignores. -/
structure Handle where
  guid : Nat
  instanceId : Nat
deriving DecidableEq

/-- Modelled from the spec: `BNComponentGetGuid` — the GUID of the component
a handle denotes. -/
def BNComponentGetGuid (h : Handle) : Nat :=
  h.guid

/-- Modelled from the spec: `BNComponentsEqual` — component equality is
decided by GUID identity, never by instance identity. -/
def BNComponentsEqual (a b : Handle) : Bool :=
  a.guid == b.guid

/-- Modelled from the spec: `BNComponentsNotEqual`. -/
def BNComponentsNotEqual (a b : Handle) : Bool :=
  a.guid != b.guid

/-- Owning view of a component, opaque to this subsystem. -/
structure BinaryView where
  viewId : Nat
deriving DecidableEq

/-- Python `Component` object of src/python/component.py: the attached view,
the core handle, and the `guid` field populated from the core at
construction time. -/
structure Component where
  view : BinaryView
  handle : Handle
  guid : Nat
deriving DecidableEq

/-- Component construction (`Component.__init__`): asserts that a view and a
core handle were supplied, then populates `guid` from the core; modelled
with `Except`, an assertion failure being the error case. -/
def Component.init (view : Option BinaryView) (handle : Option Handle) :
    Except String Component :=
  match view, handle with
  | none, _ => .error ("Component must have an attached BinaryView")
  | some _, none => .error ("Cannot create component directly, run bv.create_component")
  | some v, some h => .ok { view := v, handle := h, guid := BNComponentGetGuid h }

/-- Component equality (`Component.__eq__`): delegates to the core's
GUID-based comparison of the two handles. -/
def Component.eq (a b : Component) : Bool :=
  BNComponentsEqual a.handle b.handle

/-- Component inequality (`Component.__ne__`). -/
def Component.ne (a b : Component) : Bool :=
  BNComponentsNotEqual a.handle b.handle

/-- Method `Component.add_function`. -/
def Component.add_function (s : CoreState) (c : Component) (fid : Nat) : Bool × CoreState :=
  BNComponentAddFunctionReference s c.handle.guid fid

/-- Method `Component.contains_function`. -/
def Component.contains_function (s : CoreState) (c : Component) (fid : Nat) : Bool :=
  BNComponentContainsFunction s c.handle.guid fid

/-- Method `Component.remove_function`. -/
def Component.remove_function (s : CoreState) (c : Component) (fid : Nat) : Bool × CoreState :=
  BNComponentRemoveFunctionReference s c.handle.guid fid

/-- Method `Component.contains_component`. -/
def Component.contains_component (s : CoreState) (c : Component) (other : Component) : Bool :=
  BNComponentContainsComponent s c.handle.guid other.handle.guid

/-- Property `Component.parent`: wraps the core's parent GUID, when there is
one, in a freshly constructed `Component` (a new handle instance). -/
def Component.parentComp (s : CoreState) (c : Component) : Option Component :=
  match BNComponentGetParent s c.handle.guid with
  | some p => some { view := c.view, handle := { guid := p, instanceId := 0 }, guid := p }
  | none => none

/-- Iterator object returned by the `Component.components` property: it
captures only the view and the component, no snapshot of the children. -/
structure SubComponentIterator where
  view : BinaryView
  comp : Component
deriving DecidableEq

/-- Iteration start (`SubComponentIterator.__iter__`): reads the contained
components from the core in the state current at that moment. -/
def SubComponentIterator.iterStart (s : CoreState) (it : SubComponentIterator) : List Nat :=
  BNComponentGetContainedComponents s it.comp.handle.guid

/-- Property `Component.components`: allocates the lazy iterator without
touching the core state. -/
def Component.components (c : Component) : SubComponentIterator :=
  { view := c.view, comp := c }

/-- Iterator object returned by the `Component.functions` property. -/
structure FunctionIterator where
  view : BinaryView
  comp : Component
deriving DecidableEq

/-- Iteration start (`FunctionIterator.__iter__`): reads the contained
functions from the core in the state current at that moment. -/
def FunctionIterator.iterStart (s : CoreState) (it : FunctionIterator) : List Nat :=
  BNComponentGetContainedFunctions s it.comp.handle.guid

/-- Property `Component.functions`: allocates the lazy iterator without
touching the core state. -/
def Component.functions (c : Component) : FunctionIterator :=
  { view := c.view, comp := c }

/-- Method `Component.get_referenced_data_variables`. -/
def Component.get_referenced_data_variables (s : CoreState) (c : Component)
    (recursive : Bool) : List Nat :=
  if recursive then BNComponentGetReferencedDataVariablesRecursive s c.handle.guid
  else BNComponentGetReferencedDataVariables s c.handle.guid

/-- Method `Component.get_referenced_types`. -/
def Component.get_referenced_types (s : CoreState) (c : Component)
    (recursive : Bool) : List Nat :=
  if recursive then BNComponentGetReferencedTypesRecursive s c.handle.guid
  else BNComponentGetReferencedTypes s c.handle.guid

/-- Property `Component.name` (getter). -/
def Component.getName (s : CoreState) (c : Component) : String :=
  BNComponentGetName s c.handle.guid

/-- Property `Component.name` (setter). -/
def Component.setName (s : CoreState) (c : Component) (n : String) : CoreState :=
  BNComponentSetName s c.handle.guid n

/-- Example function of the analysis database: it references data variable
100 and type 7. -/
def exFunc : Func :=
  { fid := 10, dataVars := [100], typeRefs := [7] }

/-- Example registry: a three-level chain A (GUID 0) → B (GUID 1) → C
(GUID 2) where only C owns `exFunc`. -/
def exChain : CoreState :=
  { comps :=
      [ { guid := 0, name := "A", parent := none, children := [1], funcRefs := [] }
      , { guid := 1, name := "B", parent := some 0, children := [2], funcRefs := [] }
      , { guid := 2, name := "C", parent := some 1, children := [], funcRefs := [10] } ]
  , funcs := [exFunc] }

/-- Example registry: two unattached sibling roots A (GUID 0) and B
(GUID 1), where B owns `exFunc`. -/
def exPair : CoreState :=
  { comps :=
      [ { guid := 0, name := "A", parent := none, children := [], funcRefs := [] }
      , { guid := 1, name := "B", parent := none, children := [], funcRefs := [10] } ]
  , funcs := [exFunc] }

/-- Example Python component wrapper for the component with GUID `g`. -/
def exComp (g : Nat) : Component :=
  { view := { viewId := 0 }, handle := { guid := g, instanceId := 0 }, guid := g }

/-! Basic lemmas about registry lookup and pointwise update. -/

theorem findComp_some {s : CoreState} {g : Nat} {c : CompData}
    (h : findComp s g = some c) : c ∈ s.comps ∧ c.guid = g := by
  unfold findComp at h
  refine ⟨List.mem_of_find?_eq_some h, ?_⟩
  have := List.find?_some h
  simpa using this

theorem find?_guid_of_mem {l : List CompData} {c : CompData}
    (hnd : (l.map CompData.guid).Nodup) (hc : c ∈ l) :
    l.find? (fun x => x.guid == c.guid) = some c := by
  induction l with
  | nil => cases hc
  | cons d rest ih =>
      rw [List.map_cons] at hnd
      rcases List.mem_cons.1 hc with rfl | hmem
      · simp [List.find?_cons]
      · have hne : d.guid ≠ c.guid := by
          intro he
          exact (List.nodup_cons.1 hnd).1 (he ▸ List.mem_map_of_mem _ hmem)
        have hb : (d.guid == c.guid) = false := by simpa using hne
        simpa [List.find?_cons, hb] using ih (List.nodup_cons.1 hnd).2 hmem

theorem findComp_of_mem {s : CoreState} {c : CompData}
    (hnd : (s.comps.map CompData.guid).Nodup) (hc : c ∈ s.comps) :
    findComp s c.guid = some c :=
  find?_guid_of_mem hnd hc

theorem findComp_updComp {s : CoreState} (g : Nat) {f : CompData → CompData}
    (hf : ∀ c, (f c).guid = c.guid) (x : Nat) :
    findComp (updComp s g f) x
      = (findComp s x).map (fun c => if c.guid == g then f c else c) := by
  have hpred : ((fun c : CompData => c.guid == x) ∘ (fun c => if c.guid == g then f c else c))
      = (fun c : CompData => c.guid == x) := by
    funext c
    by_cases h : c.guid = g <;> simp [Function.comp, h, hf]
  show (s.comps.map (fun c => if c.guid == g then f c else c)).find? (fun c => c.guid == x)
      = _
  rw [List.find?_map, hpred]
  rfl

theorem findComp_updComp_self {s : CoreState} {g : Nat} {f : CompData → CompData}
    (hf : ∀ c, (f c).guid = c.guid) :
    findComp (updComp s g f) g = (findComp s g).map f := by
  rw [findComp_updComp g hf g]
  cases hc : findComp s g with
  | none => rfl
  | some c =>
      have := (findComp_some hc).2
      simp [this]

theorem findComp_updComp_ne {s : CoreState} {g x : Nat} {f : CompData → CompData}
    (hf : ∀ c, (f c).guid = c.guid) (hx : x ≠ g) :
    findComp (updComp s g f) x = findComp s x := by
  rw [findComp_updComp g hf x]
  cases hc : findComp s x with
  | none => rfl
  | some c =>
      have hg := (findComp_some hc).2
      simp [hg, hx]

theorem comps_length_updComp (s : CoreState) (g : Nat) (f : CompData → CompData) :
    (updComp s g f).comps.length = s.comps.length := by
  simp [updComp]

theorem map_guid_updComp {s : CoreState} {g : Nat} {f : CompData → CompData}
    (hf : ∀ c, (f c).guid = c.guid) :
    (updComp s g f).comps.map CompData.guid = s.comps.map CompData.guid := by
  simp only [updComp, List.map_map]
  congr 1
  funext c
  by_cases h : c.guid = g <;> simp [Function.comp, h, hf]

theorem funcs_updComp (s : CoreState) (g : Nat) (f : CompData → CompData) :
    (updComp s g f).funcs = s.funcs := rfl

theorem funcById_updComp (s : CoreState) (g : Nat) (f : CompData → CompData) (fid : Nat) :
    funcById (updComp s g f) fid = funcById s fid := rfl

theorem mem_updComp {s : CoreState} {g : Nat} {f : CompData → CompData} {x : CompData} :
    x ∈ (updComp s g f).comps
      ↔ ∃ c ∈ s.comps, x = (if c.guid == g then f c else c) := by
  simp only [updComp, List.mem_map]
  constructor
  · rintro ⟨c, hc, rfl⟩; exact ⟨c, hc, rfl⟩
  · rintro ⟨c, hc, rfl⟩; exact ⟨c, hc, rfl⟩

/-! Lemmas about the fueled parent chain `iterP` and `ancestorsFuel`. -/

theorem iterP_succ (s : CoreState) (k g : Nat) :
    iterP s (k + 1) g
      = match parentOf s g with
        | none => none
        | some p => iterP s k p := rfl

theorem iterP_add (s : CoreState) (a b g : Nat) :
    iterP s (a + b) g = (iterP s a g).bind (fun z => iterP s b z) := by
  induction a generalizing g with
  | zero => simp [iterP]
  | succ a ih =>
      have h1 : a + 1 + b = (a + b) + 1 := by omega
      rw [h1, iterP_succ, iterP_succ]
      cases hp : parentOf s g with
      | none => rfl
      | some p => exact ih p

theorem mem_ancestorsFuel_iff (s : CoreState) (fuel g x : Nat) :
    x ∈ ancestorsFuel s fuel g ↔ ∃ k, 0 < k ∧ k ≤ fuel ∧ iterP s k g = some x := by
  induction fuel generalizing g with
  | zero =>
      simp only [ancestorsFuel, List.not_mem_nil, false_iff]
      rintro ⟨k, hk0, hkf, _⟩
      omega
  | succ fuel ih =>
      rw [ancestorsFuel]
      cases hp : parentOf s g with
      | none =>
          simp only [List.not_mem_nil, false_iff]
          rintro ⟨k, hk0, hkf, hit⟩
          cases k with
          | zero => omega
          | succ m => rw [iterP_succ, hp] at hit; cases hit
      | some p =>
          simp only [List.mem_cons]
          constructor
          · rintro (rfl | hmem)
            · exact ⟨1, by omega, by omega, by rw [iterP_succ, hp]; rfl⟩
            · rcases (ih p).1 hmem with ⟨k, hk0, hkf, hit⟩
              exact ⟨k + 1, by omega, by omega, by rw [iterP_succ, hp]; exact hit⟩
          · rintro ⟨k, hk0, hkf, hit⟩
            cases k with
            | zero => omega
            | succ m =>
                rw [iterP_succ, hp] at hit
                rcases Nat.eq_zero_or_pos m with rfl | hm
                · left
                  cases hit
                  rfl
                · right
                  exact (ih p).2 ⟨m, hm, by omega, hit⟩

theorem iterP_isSome_of_le {s : CoreState} {k i x z : Nat}
    (h : iterP s k x = some z) (hik : i ≤ k) : (iterP s i x).isSome := by
  have hk : k = i + (k - i) := by omega
  rw [hk, iterP_add] at h
  cases hi : iterP s i x with
  | none => rw [hi] at h; cases h
  | some w => simp

theorem iterP_le_of_acyclic {s : CoreState} {k x z : Nat}
    (hN : ∀ c ∈ s.comps, c.guid ∉ ancestorsFuel s s.comps.length c.guid)
    (h : iterP s k x = some z) : k ≤ s.comps.length := by
  by_contra hgt
  push_neg at hgt
  have hsome : ∀ i, i ≤ s.comps.length → (iterP s i x).isSome := by
    intro i hi
    exact iterP_isSome_of_le h (by omega)
  have key : ∀ i j : Nat, i < j → j ≤ s.comps.length →
      (iterP s i x).getD 0 = (iterP s j x).getD 0 → False := by
    intro i j hij hjN heq
    obtain ⟨w, hw⟩ := Option.isSome_iff_exists.1 (hsome i (by omega))
    obtain ⟨w2, hw2⟩ := Option.isSome_iff_exists.1 (hsome j hjN)
    rw [hw, hw2] at heq
    simp only [Option.getD_some] at heq
    subst heq
    have hj : j = i + (j - i) := by omega
    rw [hj, iterP_add, hw] at hw2
    simp only [Option.some_bind] at hw2
    have hreg : ∃ c ∈ s.comps, c.guid = w := by
      rcases Nat.exists_eq_add_of_lt hij with ⟨m, rfl⟩
      have hd : i + m + 1 - i = m + 1 := by omega
      rw [hd, iterP_succ] at hw2
      cases hpp : parentOf s w with
      | none => rw [hpp] at hw2; cases hw2
      | some p =>
          unfold parentOf at hpp
          cases hf : findComp s w with
          | none => rw [hf] at hpp; cases hpp
          | some c =>
              rcases findComp_some hf with ⟨hmem, hguid⟩
              exact ⟨c, hmem, hguid⟩
    rcases hreg with ⟨c, hmem, hguid⟩
    refine hN c hmem ?_
    rw [hguid]
    exact (mem_ancestorsFuel_iff s _ w w).2 ⟨j - i, by omega, by omega, hw2⟩
  have hmemg : ∀ i ∈ Finset.range (s.comps.length + 1),
      (iterP s i x).getD 0 ∈ (s.comps.map CompData.guid).toFinset := by
    intro i hi
    rw [Finset.mem_range] at hi
    obtain ⟨w, hw⟩ := Option.isSome_iff_exists.1 (hsome i (by omega))
    have hs1 : (iterP s (i + 1) x).isSome := iterP_isSome_of_le h (by omega)
    obtain ⟨w2, hw2⟩ := Option.isSome_iff_exists.1 hs1
    rw [iterP_add, hw] at hw2
    simp only [Option.some_bind] at hw2
    rw [iterP_succ] at hw2
    cases hpp : parentOf s w with
    | none => rw [hpp] at hw2; cases hw2
    | some p =>
        unfold parentOf at hpp
        cases hf : findComp s w with
        | none => rw [hf] at hpp; cases hpp
        | some c =>
            rcases findComp_some hf with ⟨hmem, hguid⟩
            rw [hw]
            simp only [Option.getD_some]
            rw [List.mem_toFinset]
            exact hguid ▸ List.mem_map_of_mem _ hmem
  have hcard : (s.comps.map CompData.guid).toFinset.card
      < (Finset.range (s.comps.length + 1)).card := by
    have hle := List.toFinset_card_le (s.comps.map CompData.guid)
    rw [Finset.card_range]
    rw [List.length_map] at hle
    omega
  obtain ⟨i, hi, j, hj, hij, heq⟩ :=
    Finset.exists_ne_map_eq_of_card_lt_of_maps_to hcard hmemg
  rw [Finset.mem_range] at hi hj
  rcases Nat.lt_or_ge i j with hlt | hge
  · exact key i j hlt (by omega) heq
  · have hlt : j < i := by omega
    exact key j i hlt (by omega) heq.symm

theorem not_self_ancestor {s : CoreState}
    (hN : ∀ c ∈ s.comps, c.guid ∉ ancestorsFuel s s.comps.length c.guid) :
    ∀ fuel x, x ∉ ancestorsFuel s fuel x := by
  intro fuel x hx
  rcases (mem_ancestorsFuel_iff s fuel x x).1 hx with ⟨k, hk0, hkf, hit⟩
  have hkN : k ≤ s.comps.length := iterP_le_of_acyclic hN hit
  cases k with
  | zero => omega
  | succ m =>
      have hp : ∃ p, parentOf s x = some p := by
        rw [iterP_succ] at hit
        cases hpp : parentOf s x with
        | none => rw [hpp] at hit; cases hit
        | some p => exact ⟨p, rfl⟩
      rcases hp with ⟨p, hp⟩
      have hfind : ∃ c, findComp s x = some c := by
        unfold parentOf at hp
        cases hf : findComp s x with
        | none => rw [hf] at hp; cases hp
        | some c => exact ⟨c, rfl⟩
      rcases hfind with ⟨c, hc⟩
      rcases findComp_some hc with ⟨hmem, hguid⟩
      refine hN c hmem ?_
      rw [hguid]
      exact (mem_ancestorsFuel_iff s _ x x).2 ⟨m + 1, hk0, hkN, hit⟩

/-! Bridge between the children-based subtree search and the parent chain:
under the mutual-consistency invariant the two views of the tree agree. -/

theorem anc_extend {s : CoreState} {fuel g x p : Nat}
    (hx : x ∈ ancestorsFuel s fuel g) (hp : parentOf s x = some p) :
    p ∈ ancestorsFuel s (fuel + 1) g := by
  rcases (mem_ancestorsFuel_iff s fuel g x).1 hx with ⟨k, hk0, hkf, hit⟩
  refine (mem_ancestorsFuel_iff s (fuel + 1) g p).2 ⟨k + 1, by omega, by omega, ?_⟩
  rw [iterP_add, hit]
  simp only [Option.some_bind]
  rw [iterP_succ, hp]
  rfl

theorem parent_of_child_mem {s : CoreState}
    (hnd : (s.comps.map CompData.guid).Nodup)
    (hchildmem : ∀ c ∈ s.comps, ∀ ch ∈ c.children, ∃ d ∈ s.comps, d.guid = ch)
    (hcons : ∀ c ∈ s.comps, ∀ d ∈ s.comps, (c.guid ∈ d.children ↔ c.parent = some d.guid))
    {root ch : Nat} (h : ch ∈ childrenOf s root) : parentOf s ch = some root := by
  unfold childrenOf at h
  cases hf : findComp s root with
  | none => rw [hf] at h; cases h
  | some cr =>
      rw [hf] at h
      rcases findComp_some hf with ⟨hmemr, hguidr⟩
      rcases hchildmem cr hmemr ch h with ⟨d, hmemd, hguidd⟩
      have hpar : d.parent = some cr.guid :=
        (hcons d hmemd cr hmemr).1 (by rw [hguidd]; exact h)
      have hfd : findComp s ch = some d := by
        rw [← hguidd]
        exact findComp_of_mem hnd hmemd
      unfold parentOf
      rw [hfd]
      show d.parent = some root
      rw [hpar, hguidr]

theorem child_of_parent {s : CoreState}
    (hnd : (s.comps.map CompData.guid).Nodup)
    (hparentmem : ∀ c ∈ s.comps, ∀ p, c.parent = some p → ∃ d ∈ s.comps, d.guid = p)
    (hcons : ∀ c ∈ s.comps, ∀ d ∈ s.comps, (c.guid ∈ d.children ↔ c.parent = some d.guid))
    {g p : Nat} (hp : parentOf s g = some p) : g ∈ childrenOf s p := by
  unfold parentOf at hp
  cases hf : findComp s g with
  | none => rw [hf] at hp; cases hp
  | some cg =>
      rw [hf] at hp
      rcases findComp_some hf with ⟨hmemg, hguidg⟩
      rcases hparentmem cg hmemg p hp with ⟨dp, hmemd, hguidd⟩
      have hch : cg.guid ∈ dp.children :=
        (hcons cg hmemg dp hmemd).2 (by rw [hguidd]; exact hp)
      have hfd : findComp s p = some dp := by
        rw [← hguidd]
        exact findComp_of_mem hnd hmemd
      unfold childrenOf
      rw [hfd]
      show g ∈ dp.children
      rw [hguidg] at hch
      exact hch

theorem mem_ancestors_of_descendant {s : CoreState}
    (hnd : (s.comps.map CompData.guid).Nodup)
    (hchildmem : ∀ c ∈ s.comps, ∀ ch ∈ c.children, ∃ d ∈ s.comps, d.guid = ch)
    (hcons : ∀ c ∈ s.comps, ∀ d ∈ s.comps, (c.guid ∈ d.children ↔ c.parent = some d.guid)) :
    ∀ fuel root g, isDescendantFuel s fuel root g = true → root ∈ ancestorsFuel s fuel g := by
  intro fuel
  induction fuel with
  | zero => intro root g h; cases h
  | succ fuel ih =>
      intro root g h
      rw [isDescendantFuel] at h
      rcases List.any_eq_true.1 h with ⟨ch, hch, hor⟩
      rw [Bool.or_eq_true] at hor
      rcases hor with heq | hdesc
      · have hg : ch = g := by simpa using heq
        subst hg
        have hp := parent_of_child_mem hnd hchildmem hcons hch
        refine (mem_ancestorsFuel_iff s (fuel + 1) ch root).2 ⟨1, by omega, by omega, ?_⟩
        rw [iterP_succ, hp]
        rfl
      · have hmem := ih ch g hdesc
        exact anc_extend hmem (parent_of_child_mem hnd hchildmem hcons hch)

theorem descendant_extend {s : CoreState} {fuel root p g : Nat}
    (h : isDescendantFuel s fuel root p = true) (hg : g ∈ childrenOf s p) :
    isDescendantFuel s (fuel + 1) root g = true := by
  induction fuel generalizing root with
  | zero => cases h
  | succ fuel ih =>
      rw [isDescendantFuel] at h
      rcases List.any_eq_true.1 h with ⟨ch, hch, hor⟩
      rw [isDescendantFuel]
      refine List.any_eq_true.2 ⟨ch, hch, ?_⟩
      rw [Bool.or_eq_true] at hor
      simp only [Bool.or_eq_true]
      rcases hor with heq | hdesc
      · have hcp : ch = p := by simpa using heq
        subst hcp
        refine Or.inr ?_
        rw [isDescendantFuel]
        refine List.any_eq_true.2 ⟨g, hg, ?_⟩
        simp
      · exact Or.inr (ih hdesc)

theorem isDescendant_of_mem_ancestors {s : CoreState}
    (hnd : (s.comps.map CompData.guid).Nodup)
    (hparentmem : ∀ c ∈ s.comps, ∀ p, c.parent = some p → ∃ d ∈ s.comps, d.guid = p)
    (hcons : ∀ c ∈ s.comps, ∀ d ∈ s.comps, (c.guid ∈ d.children ↔ c.parent = some d.guid)) :
    ∀ fuel root g, root ∈ ancestorsFuel s fuel g → isDescendantFuel s fuel root g = true := by
  intro fuel
  induction fuel with
  | zero => intro root g h; cases h
  | succ fuel ih =>
      intro root g h
      rw [ancestorsFuel] at h
      cases hp : parentOf s g with
      | none => rw [hp] at h; cases h
      | some p =>
          rw [hp] at h
          have hgch : g ∈ childrenOf s p := child_of_parent hnd hparentmem hcons hp
          rcases List.mem_cons.1 h with rfl | hmem
          · rw [isDescendantFuel]
            refine List.any_eq_true.2 ⟨g, hgch, ?_⟩
            simp
          · exact descendant_extend (ih root p hmem) hgch

/-! Characterization of the state after a successful attach. -/

theorem parentOf_eq {s : CoreState} {g : Nat} {c : CompData}
    (h : findComp s g = some c) : parentOf s g = c.parent := by
  unfold parentOf
  rw [h]

theorem childrenOf_eq {s : CoreState} {g : Nat} {c : CompData}
    (h : findComp s g = some c) : childrenOf s g = c.children := by
  unfold childrenOf
  rw [h]

theorem exists_guid_mem {l : List CompData} {x : Nat} :
    (∃ d ∈ l, d.guid = x) ↔ x ∈ l.map CompData.guid := by
  rw [List.mem_map]

theorem attach_map_guid (s : CoreState) (S C : Nat) :
    (attachState s S C).comps.map CompData.guid = s.comps.map CompData.guid := by
  unfold attachState
  rw [map_guid_updComp (f := fun c => { c with parent := some S }) (fun c => rfl), map_guid_updComp (f := fun c => { c with children := c.children ++ [C] }) (fun c => rfl)]
  unfold detachChild
  cases parentOf s C with
  | none => rfl
  | some p =>
      rw [map_guid_updComp (f := fun c => { c with parent := none }) (fun c => rfl), map_guid_updComp (f := fun c => { c with children := c.children.erase C }) (fun c => rfl)]

theorem attach_length (s : CoreState) (S C : Nat) :
    (attachState s S C).comps.length = s.comps.length := by
  have h := congrArg List.length (attach_map_guid s S C)
  simpa using h

theorem attach_funcs (s : CoreState) (S C : Nat) :
    (attachState s S C).funcs = s.funcs := by
  show (detachChild s C).funcs = s.funcs
  unfold detachChild
  cases parentOf s C <;> rfl

theorem attach_findComp_child {s : CoreState} {S C : Nat} {cc : CompData}
    (hchild : findComp s C = some cc) (hne : C ≠ S) (hpC : cc.parent ≠ some C) :
    findComp (attachState s S C) C = some { cc with parent := some S } := by
  unfold attachState
  rw [findComp_updComp_self (f := fun c => { c with parent := some S }) (fun c => rfl)]
  rw [findComp_updComp_ne (f := fun c => { c with children := c.children ++ [C] }) (fun c => rfl) hne]
  unfold detachChild
  rw [parentOf_eq hchild]
  cases hpar : cc.parent with
  | none =>
      rw [hchild]
      rfl
  | some p =>
      have hCp : C ≠ p := by
        intro h
        exact hpC (by rw [hpar, h])
      rw [findComp_updComp_self (f := fun c => { c with parent := none }) (fun c => rfl)]
      rw [findComp_updComp_ne (f := fun c => { c with children := c.children.erase C }) (fun c => rfl) hCp]
      rw [hchild]
      rfl

theorem attach_findComp_self {s : CoreState} {S C : Nat} {cs cc : CompData}
    (hself : findComp s S = some cs) (hchild : findComp s C = some cc)
    (hne : C ≠ S) :
    findComp (attachState s S C) S
      = some { cs with children :=
          (if cc.parent = some S then cs.children.erase C else cs.children) ++ [C] } := by
  unfold attachState
  rw [findComp_updComp_ne (f := fun c => { c with parent := some S }) (fun c => rfl) (Ne.symm hne)]
  rw [findComp_updComp_self (f := fun c => { c with children := c.children ++ [C] }) (fun c => rfl)]
  unfold detachChild
  rw [parentOf_eq hchild]
  cases hpar : cc.parent with
  | none =>
      rw [hself]
      simp
  | some p =>
      by_cases hpS : p = S
      · subst hpS
        rw [findComp_updComp_ne (f := fun c => { c with parent := none }) (fun c => rfl) (Ne.symm hne)]
        rw [findComp_updComp_self (f := fun c => { c with children := c.children.erase C }) (fun c => rfl)]
        rw [hself]
        simp
      · rw [findComp_updComp_ne (f := fun c => { c with parent := none }) (fun c => rfl) (Ne.symm hne)]
        rw [findComp_updComp_ne (f := fun c => { c with children := c.children.erase C }) (fun c => rfl) (fun h => hpS h.symm)]
        rw [hself]
        simp [hpS]

theorem attach_findComp_other {s : CoreState} {S C x : Nat} {cc : CompData}
    (hchild : findComp s C = some cc) (hxC : x ≠ C) (hxS : x ≠ S) :
    findComp (attachState s S C) x
      = if cc.parent = some x
          then (findComp s x).map (fun c => { c with children := c.children.erase C })
          else findComp s x := by
  unfold attachState
  rw [findComp_updComp_ne (f := fun c => { c with parent := some S }) (fun c => rfl) hxC]
  rw [findComp_updComp_ne (f := fun c => { c with children := c.children ++ [C] }) (fun c => rfl) hxS]
  unfold detachChild
  rw [parentOf_eq hchild]
  cases hpar : cc.parent with
  | none => simp
  | some p =>
      rw [findComp_updComp_ne (f := fun c => { c with parent := none }) (fun c => rfl) hxC]
      by_cases hpx : p = x
      · subst hpx
        rw [findComp_updComp_self (f := fun c => { c with children := c.children.erase C }) (fun c => rfl)]
        simp
      · rw [findComp_updComp_ne (f := fun c => { c with children := c.children.erase C }) (fun c => rfl) (fun h => hpx h.symm)]
        simp [hpx]

/-! Preservation of well-formedness by a successful attach. -/

theorem iterP_congr_off {s1 s2 : CoreState} {C : Nat}
    (hp : ∀ x, x ≠ C → parentOf s2 x = parentOf s1 x) :
    ∀ k x, (∀ i, i < k → iterP s2 i x ≠ some C) → iterP s2 k x = iterP s1 k x := by
  intro k
  induction k with
  | zero => intro x h; rfl
  | succ k ih =>
      intro x h
      have hx : x ≠ C := by
        intro he
        exact h 0 (by omega) (by rw [he]; rfl)
      rw [iterP_succ, iterP_succ, hp x hx]
      cases hpp : parentOf s1 x with
      | none => rfl
      | some p =>
          apply ih
          intro i hi hit
          exact h (i + 1) (by omega) (by rw [iterP_succ, hp x hx, hpp]; exact hit)

theorem attach_parentOf_child {s : CoreState} {S C : Nat} {cc : CompData}
    (hchild : findComp s C = some cc) (hne : C ≠ S) (hpC : cc.parent ≠ some C) :
    parentOf (attachState s S C) C = some S := by
  rw [parentOf_eq (attach_findComp_child hchild hne hpC)]

theorem attach_parentOf_other {s : CoreState} {S C x : Nat} {cs cc : CompData}
    (hself : findComp s S = some cs) (hchild : findComp s C = some cc)
    (hne : C ≠ S) (hx : x ≠ C) :
    parentOf (attachState s S C) x = parentOf s x := by
  by_cases hxS : x = S
  · subst hxS
    rw [parentOf_eq (attach_findComp_self hself hchild hne), parentOf_eq hself]
  · have h := attach_findComp_other (S := S) hchild hx hxS
    unfold parentOf
    rw [h]
    by_cases hcp : cc.parent = some x
    · rw [if_pos hcp]
      cases hfx : findComp s x with
      | none => rfl
      | some c0 => rfl
    · rw [if_neg hcp]

theorem attach_WF {s : CoreState} {S C : Nat} {cs cc : CompData}
    (hwf : WF s)
    (hself : findComp s S = some cs) (hchild : findComp s C = some cc)
    (hne : C ≠ S)
    (hnc : BNComponentContainsComponent s C S = false) :
    WF (attachState s S C) := by
  obtain ⟨hnd, hcnd, hfnd, hchm, hpm, hcons, hacy⟩ := hwf
  obtain ⟨hmemS, hgS⟩ := findComp_some hself
  obtain ⟨hmemC, hgC⟩ := findComp_some hchild
  have hpC : cc.parent ≠ some C := by
    intro h
    refine hacy cc hmemC ?_
    rw [hgC]
    have hNpos : 0 < s.comps.length := by
      rw [List.length_pos]
      intro he
      rw [he] at hmemC
      cases hmemC
    refine (mem_ancestorsFuel_iff s _ C C).2 ⟨1, by omega, by omega, ?_⟩
    rw [iterP_succ, parentOf_eq hchild, h]
    rfl
  have hβ : ∀ fuel, C ∉ ancestorsFuel s fuel S := by
    intro fuel hmem
    rcases (mem_ancestorsFuel_iff s fuel S C).1 hmem with ⟨k, hk0, hkf, hit⟩
    have hkN : k ≤ s.comps.length := iterP_le_of_acyclic hacy hit
    have hmemN : C ∈ ancestorsFuel s s.comps.length S :=
      (mem_ancestorsFuel_iff s _ S C).2 ⟨k, hk0, hkN, hit⟩
    have hdesc := isDescendant_of_mem_ancestors hnd hpm hcons s.comps.length C S hmemN
    unfold BNComponentContainsComponent at hnc
    rw [hdesc] at hnc
    cases hnc
  have hFc := attach_findComp_child hchild hne hpC
  have hFs := attach_findComp_self (S := S) hself hchild hne
  have hnd' : ((attachState s S C).comps.map CompData.guid).Nodup := by
    rw [attach_map_guid]
    exact hnd
  have hCmem_iff : ∀ d ∈ s.comps, (C ∈ d.children ↔ cc.parent = some d.guid) := by
    intro d hd
    have h := hcons cc hmemC d hd
    rw [hgC] at h
    exact h
  have hchar : ∀ x ∈ (attachState s S C).comps,
      (x.guid = C ∧ x = { cc with parent := some S })
      ∨ (x.guid = S ∧ x = { cs with children :=
            (if cc.parent = some S then cs.children.erase C else cs.children) ++ [C] })
      ∨ (x.guid ≠ C ∧ x.guid ≠ S ∧ cc.parent = some x.guid
          ∧ ∃ c0 ∈ s.comps, c0.guid = x.guid ∧ x = { c0 with children := c0.children.erase C })
      ∨ (x.guid ≠ C ∧ x.guid ≠ S ∧ cc.parent ≠ some x.guid ∧ x ∈ s.comps) := by
    intro x hx
    have hfx : findComp (attachState s S C) x.guid = some x := findComp_of_mem hnd' hx
    by_cases hxC : x.guid = C
    · left
      rw [hxC, hFc] at hfx
      exact ⟨hxC, (Option.some.inj hfx).symm⟩
    · by_cases hxS : x.guid = S
      · right; left
        rw [hxS, hFs] at hfx
        exact ⟨hxS, (Option.some.inj hfx).symm⟩
      · have h := attach_findComp_other (S := S) hchild hxC hxS
        by_cases hcp : cc.parent = some x.guid
        · right; right; left
          rw [h, if_pos hcp] at hfx
          cases hf0 : findComp s x.guid with
          | none => rw [hf0] at hfx; cases hfx
          | some c0 =>
              rw [hf0, Option.map_some'] at hfx
              rcases findComp_some hf0 with ⟨hm0, hg0⟩
              exact ⟨hxC, hxS, hcp, c0, hm0, hg0, (Option.some.inj hfx).symm⟩
        · right; right; right
          rw [h, if_neg hcp] at hfx
          rcases findComp_some hfx with ⟨hm, _⟩
          exact ⟨hxC, hxS, hcp, hm⟩
  have hcnd' : ∀ x ∈ (attachState s S C).comps, x.children.Nodup := by
    intro x hx
    rcases hchar x hx with ⟨_, rfl⟩ | ⟨_, rfl⟩ | ⟨_, _, _, c0, hm0, _, rfl⟩ | ⟨_, _, _, hm⟩
    · exact hcnd cc hmemC
    · have hpre : (if cc.parent = some S then cs.children.erase C else cs.children).Nodup := by
        by_cases hcp : cc.parent = some S
        · rw [if_pos hcp]
          exact (hcnd cs hmemS).erase C
        · rw [if_neg hcp]
          exact hcnd cs hmemS
      have hCpre : C ∉ (if cc.parent = some S then cs.children.erase C else cs.children) := by
        by_cases hcp : cc.parent = some S
        · rw [if_pos hcp]
          exact (hcnd cs hmemS).not_mem_erase
        · rw [if_neg hcp]
          intro hCmem
          refine hcp ?_
          rw [← hgS]
          exact (hCmem_iff cs hmemS).1 hCmem
      show ((if cc.parent = some S then cs.children.erase C else cs.children) ++ [C]).Nodup
      rw [List.nodup_append]
      refine ⟨hpre, List.nodup_singleton C, ?_⟩
      intro a ha hamem
      rw [List.mem_singleton] at hamem
      subst hamem
      exact hCpre ha
    · exact (hcnd c0 hm0).erase C
    · exact hcnd x hm
  have hfnd' : ∀ x ∈ (attachState s S C).comps, x.funcRefs.Nodup := by
    intro x hx
    rcases hchar x hx with ⟨_, rfl⟩ | ⟨_, rfl⟩ | ⟨_, _, _, c0, hm0, _, rfl⟩ | ⟨_, _, _, hm⟩
    · exact hfnd cc hmemC
    · exact hfnd cs hmemS
    · exact hfnd c0 hm0
    · exact hfnd x hm
  have hex' : ∀ y : Nat, (∃ d ∈ s.comps, d.guid = y)
      → ∃ d ∈ (attachState s S C).comps, d.guid = y := by
    intro y hy
    rw [exists_guid_mem, attach_map_guid]
    exact exists_guid_mem.1 hy
  have hchm' : ∀ x ∈ (attachState s S C).comps, ∀ ch ∈ x.children,
      ∃ d ∈ (attachState s S C).comps, d.guid = ch := by
    intro x hx ch hch
    apply hex'
    rcases hchar x hx with ⟨_, rfl⟩ | ⟨_, rfl⟩ | ⟨_, _, _, c0, hm0, _, rfl⟩ | ⟨_, _, _, hm⟩
    · exact hchm cc hmemC ch hch
    · rcases List.mem_append.1 hch with hpre | hC
      · have hchcs : ch ∈ cs.children := by
          by_cases hcp : cc.parent = some S
          · rw [if_pos hcp] at hpre
            exact List.erase_subset C cs.children hpre
          · rw [if_neg hcp] at hpre
            exact hpre
        exact hchm cs hmemS ch hchcs
      · rw [List.mem_singleton] at hC
        subst hC
        exact ⟨cc, hmemC, hgC⟩
    · exact hchm c0 hm0 ch (List.erase_subset C c0.children hch)
    · exact hchm x hm ch hch
  have hpm' : ∀ x ∈ (attachState s S C).comps, ∀ p, x.parent = some p
      → ∃ d ∈ (attachState s S C).comps, d.guid = p := by
    intro x hx p hp
    apply hex'
    rcases hchar x hx with ⟨_, rfl⟩ | ⟨_, rfl⟩ | ⟨_, _, _, c0, hm0, _, rfl⟩ | ⟨_, _, _, hm⟩
    · cases hp
      exact ⟨cs, hmemS, hgS⟩
    · exact hpm cs hmemS p hp
    · exact hpm c0 hm0 p hp
    · exact hpm x hm p hp
  have haSplit : ∀ a ∈ (attachState s S C).comps,
      (a.guid = C ∧ a.parent = some S)
      ∨ (a.guid ≠ C ∧ ∃ a0 ∈ s.comps, a0.guid = a.guid ∧ a.parent = a0.parent) := by
    intro a ha
    rcases hchar a ha with ⟨haC, rfl⟩ | ⟨haS, rfl⟩ | ⟨haC, haS, hacp, a0, ham0, hag0, rfl⟩
      | ⟨haC, haS, hacp, ham⟩
    · exact Or.inl ⟨haC, rfl⟩
    · refine Or.inr ⟨?_, cs, hmemS, rfl, rfl⟩
      show cs.guid ≠ C
      rw [hgS]
      exact Ne.symm hne
    · exact Or.inr ⟨haC, a0, ham0, rfl, rfl⟩
    · exact Or.inr ⟨haC, a, ham, rfl, rfl⟩
  have hpre_iff : ∀ u, u ≠ C →
      (u ∈ (if cc.parent = some S then cs.children.erase C else cs.children)
        ↔ u ∈ cs.children) := by
    intro u hu
    by_cases hcp : cc.parent = some S
    · rw [if_pos hcp]
      exact List.mem_erase_of_ne hu
    · rw [if_neg hcp]
  have hdSplit : ∀ d ∈ (attachState s S C).comps,
      (d.guid = S ∧ d.children
          = (if cc.parent = some S then cs.children.erase C else cs.children) ++ [C])
      ∨ (d.guid ≠ S ∧ ∃ d0 ∈ s.comps, d0.guid = d.guid
          ∧ (∀ u, u ≠ C → (u ∈ d.children ↔ u ∈ d0.children))
          ∧ (C ∈ d.children ↔ (cc.parent ≠ some d.guid ∧ C ∈ d0.children))) := by
    intro d hd
    rcases hchar d hd with ⟨hdC, rfl⟩ | ⟨hdS, rfl⟩ | ⟨hdC, hdS, hdcp, d0, hdm0, hdg0, rfl⟩
      | ⟨hdC, hdS, hdcp, hdm⟩
    · refine Or.inr ⟨?_, cc, hmemC, rfl, fun u hu => Iff.rfl, ?_⟩
      · show cc.guid ≠ S
        rw [hgC]
        exact hne
      · show C ∈ cc.children ↔ (cc.parent ≠ some cc.guid ∧ C ∈ cc.children)
        have hnotin : C ∉ cc.children := by
          intro hmem
          refine hpC ?_
          rw [← hgC]
          exact (hCmem_iff cc hmemC).1 hmem
        constructor
        · intro hmem
          exact absurd hmem hnotin
        · rintro ⟨_, hmem⟩
          exact absurd hmem hnotin
    · exact Or.inl ⟨hdS, rfl⟩
    · refine Or.inr ⟨hdS, d0, hdm0, rfl, ?_, ?_⟩
      · intro u hu
        show u ∈ d0.children.erase C ↔ u ∈ d0.children
        exact List.mem_erase_of_ne hu
      · show C ∈ d0.children.erase C ↔ (cc.parent ≠ some d0.guid ∧ C ∈ d0.children)
        constructor
        · intro hmem
          exact absurd hmem (hcnd d0 hdm0).not_mem_erase
        · rintro ⟨hno, _⟩
          exact absurd hdcp hno
    · refine Or.inr ⟨hdS, d, hdm, rfl, fun u hu => Iff.rfl, ?_⟩
      constructor
      · intro hmem
        exact ⟨hdcp, hmem⟩
      · rintro ⟨_, hmem⟩
        exact hmem
  have hcons' : ∀ a ∈ (attachState s S C).comps, ∀ d ∈ (attachState s S C).comps,
      (a.guid ∈ d.children ↔ a.parent = some d.guid) := by
    intro a ha d hd
    rcases haSplit a ha with ⟨haC, hapar⟩ | ⟨haC, a0, ham0, hag0, hapar⟩
    · rcases hdSplit d hd with ⟨hdS, hdch⟩ | ⟨hdS, d0, hdm0, hdg0, hdiff, hdCm⟩
      · rw [haC, hapar, hdch, hdS]
        simp
      · rw [haC, hapar]
        constructor
        · intro hmem
          rcases hdCm.1 hmem with ⟨hno, hmem0⟩
          exfalso
          refine hno ?_
          rw [← hdg0]
          exact (hCmem_iff d0 hdm0).1 hmem0
        · intro hS
          exfalso
          exact hdS (Option.some.inj hS).symm
    · rcases hdSplit d hd with ⟨hdS, hdch⟩ | ⟨hdS, d0, hdm0, hdg0, hdiff, hdCm⟩
      · have h1 : a.guid ∈ cs.children ↔ a.parent = some S := by
          have h := hcons a0 ham0 cs hmemS
          rw [hag0, hgS, ← hapar] at h
          exact h
        rw [hdch, hdS, List.mem_append, List.mem_singleton, or_iff_left haC,
          hpre_iff a.guid haC, h1]
      · have h1 : a.guid ∈ d0.children ↔ a.parent = some d.guid := by
          have h := hcons a0 ham0 d0 hdm0
          rw [hag0, hdg0, ← hapar] at h
          exact h
        rw [hdiff a.guid haC, h1]
  have hparC' : parentOf (attachState s S C) C = some S :=
    attach_parentOf_child hchild hne hpC
  have hparO : ∀ x, x ≠ C → parentOf (attachState s S C) x = parentOf s x :=
    fun x hx => attach_parentOf_other hself hchild hne hx
  have hacy' : ∀ fuel x, x ∉ ancestorsFuel (attachState s S C) fuel x := by
    intro fuel x hx
    rcases (mem_ancestorsFuel_iff _ fuel x x).1 hx with ⟨k, hk0, hkf, hit⟩
    by_cases hC : ∃ i, i < k ∧ iterP (attachState s S C) i x = some C
    · rcases hC with ⟨i, hik, hiC⟩
      have h1 : iterP (attachState s S C) (k - i) C = some x := by
        have hcomp := iterP_add (attachState s S C) i (k - i) x
        rw [(by omega : i + (k - i) = k), hit, hiC] at hcomp
        rw [Option.some_bind] at hcomp
        exact hcomp.symm
      have h2 : iterP (attachState s S C) ((k - i) + i) C = some C := by
        rw [iterP_add, h1, Option.some_bind]
        exact hiC
      obtain ⟨m, hm⟩ : ∃ m, (k - i) + i = m + 1 := ⟨(k - i) + i - 1, by omega⟩
      rw [hm, iterP_succ, hparC'] at h2
      have hex : ∃ j, iterP (attachState s S C) j S = some C := ⟨m, h2⟩
      have hjspec : iterP (attachState s S C) (Nat.find hex) S = some C := Nat.find_spec hex
      have hj0 : 0 < Nat.find hex := by
        by_contra h0
        push_neg at h0
        have he : Nat.find hex = 0 := by omega
        have h00 := hjspec
        rw [he] at h00
        exact hne (Option.some.inj h00).symm
      have htr : iterP (attachState s S C) (Nat.find hex) S = iterP s (Nat.find hex) S :=
        iterP_congr_off hparO (Nat.find hex) S (fun i2 hi2 => Nat.find_min hex hi2)
      refine hβ (Nat.find hex) ?_
      refine (mem_ancestorsFuel_iff s _ S C).2 ⟨Nat.find hex, hj0, le_refl _, ?_⟩
      rw [← htr]
      exact hjspec
    · push_neg at hC
      have htr : iterP (attachState s S C) k x = iterP s k x :=
        iterP_congr_off hparO k x (fun i hi => hC i hi)
      refine not_self_ancestor hacy k x ?_
      refine (mem_ancestorsFuel_iff s k x x).2 ⟨k, hk0, le_refl _, ?_⟩
      rw [← htr]
      exact hit
  exact ⟨hnd', hcnd', hfnd', hchm', hpm', hcons', fun c hcm => hacy' _ c.guid⟩

/-! Inversion of `BNComponentAddComponent` and the cycle-freedom corollary. -/

theorem parent_ne_self {s : CoreState} {C : Nat} {cc : CompData}
    (hacy : ∀ c ∈ s.comps, c.guid ∉ ancestorsFuel s s.comps.length c.guid)
    (hchild : findComp s C = some cc) : cc.parent ≠ some C := by
  intro h
  obtain ⟨hmemC, hgC⟩ := findComp_some hchild
  refine hacy cc hmemC ?_
  rw [hgC]
  have hNpos : 0 < s.comps.length := by
    rw [List.length_pos]
    intro he
    rw [he] at hmemC
    cases hmemC
  refine (mem_ancestorsFuel_iff s _ C C).2 ⟨1, by omega, by omega, ?_⟩
  rw [iterP_succ, parentOf_eq hchild, h]
  rfl

theorem addComponent_success_inv {s s' : CoreState} {S C : Nat}
    (h : BNComponentAddComponent s S C = (true, s')) :
    ∃ cs cc, findComp s S = some cs ∧ findComp s C = some cc ∧ C ≠ S
      ∧ BNComponentContainsComponent s C S = false ∧ s' = attachState s S C := by
  unfold BNComponentAddComponent at h
  cases hS : findComp s S with
  | none => rw [hS] at h; simp at h
  | some cs =>
      cases hC : findComp s C with
      | none => rw [hS, hC] at h; simp at h
      | some cc =>
          rw [hS, hC] at h
          by_cases hcond : (C == S || BNComponentContainsComponent s C S) = true
          · rw [if_pos hcond] at h
            simp at h
          · rw [if_neg hcond] at h
            simp only [Bool.or_eq_true, beq_iff_eq, not_or, Bool.not_eq_true] at hcond
            obtain ⟨hne, hnc⟩ := hcond
            refine ⟨cs, cc, rfl, rfl, hne, hnc, ?_⟩
            exact (Prod.mk.injEq _ _ _ _ ▸ h).2.symm

theorem addComponent_fail_inv {s s' : CoreState} {S C : Nat}
    (h : BNComponentAddComponent s S C = (false, s')) : s' = s := by
  unfold BNComponentAddComponent at h
  cases hS : findComp s S with
  | none =>
      rw [hS] at h
      exact ((Prod.mk.injEq _ _ _ _ ▸ h).2).symm
  | some cs =>
      cases hC : findComp s C with
      | none =>
          rw [hS, hC] at h
          exact ((Prod.mk.injEq _ _ _ _ ▸ h).2).symm
      | some cc =>
          rw [hS, hC] at h
          by_cases hcond : (C == S || BNComponentContainsComponent s C S) = true
          · rw [if_pos hcond] at h
            exact ((Prod.mk.injEq _ _ _ _ ▸ h).2).symm
          · rw [if_neg hcond] at h
            simp at h

theorem contains_self_false {s : CoreState} (hwf : WF s) :
    ∀ g, BNComponentContainsComponent s g g = false := by
  intro g
  by_contra hcc
  rw [Bool.not_eq_false] at hcc
  obtain ⟨hnd, hcnd, hfnd, hchm, hpm, hcons, hacy⟩ := hwf
  unfold BNComponentContainsComponent at hcc
  have hmem := mem_ancestors_of_descendant hnd hchm hcons s.comps.length g g hcc
  exact not_self_ancestor hacy _ g hmem

/-- C2: after a successful `A.add_component(B)` the child's parent
back-reference points at A, `A.contains_component(B)` holds, the children
enumeration that `A.components` reads yields B exactly once, and in the
resulting registry X appears in Y's children enumeration if and only if
X's parent is Y. -/
theorem add_component_establishes_membership (s s' : CoreState) (a b : Nat)
    (hwf : WF s) (h : BNComponentAddComponent s a b = (true, s')) :
    parentOf s' b = some a
    ∧ BNComponentContainsComponent s' a b = true
    ∧ (BNComponentGetContainedComponents s' a).count b = 1
    ∧ (∀ x ∈ s'.comps, ∀ y ∈ s'.comps, (x.guid ∈ y.children ↔ x.parent = some y.guid)) := by
  rcases addComponent_success_inv h with ⟨cs, cc, hself, hchild, hne, hnc, rfl⟩
  obtain ⟨hmemS, hgS⟩ := findComp_some hself
  obtain ⟨hmemC, hgC⟩ := findComp_some hchild
  have hpC : cc.parent ≠ some b := parent_ne_self hwf.2.2.2.2.2.2 hchild
  have hFc := attach_findComp_child hchild hne hpC
  have hFs := attach_findComp_self (S := a) hself hchild hne
  have hwf' := attach_WF hwf hself hchild hne hnc
  have hmemb : b ∈ childrenOf (attachState s a b) a := by
    rw [childrenOf_eq hFs]
    show b ∈ (if cc.parent = some a then cs.children.erase b else cs.children) ++ [b]
    exact List.mem_append.2 (Or.inr (List.mem_singleton.2 rfl))
  refine ⟨attach_parentOf_child hchild hne hpC, ?_, ?_, hwf'.2.2.2.2.2.1⟩
  · obtain ⟨m, hm⟩ : ∃ m, (attachState s a b).comps.length = m + 1 := by
      have hNpos : 0 < (attachState s a b).comps.length := by
        rw [attach_length, List.length_pos]
        intro he
        rw [he] at hmemS
        cases hmemS
      exact ⟨(attachState s a b).comps.length - 1, by omega⟩
    unfold BNComponentContainsComponent
    rw [hm, isDescendantFuel]
    refine List.any_eq_true.2 ⟨b, hmemb, ?_⟩
    simp
  · have hbpre : b ∉ (if cc.parent = some a then cs.children.erase b else cs.children) := by
      by_cases hcp : cc.parent = some a
      · rw [if_pos hcp]
        exact (hwf.2.1 cs hmemS).not_mem_erase
      · rw [if_neg hcp]
        intro hbmem
        refine hcp ?_
        rw [← hgS]
        have hiff := hwf.2.2.2.2.2.1 cc hmemC cs hmemS
        rw [hgC] at hiff
        exact hiff.1 hbmem
    unfold BNComponentGetContainedComponents
    rw [childrenOf_eq hFs]
    show ((if cc.parent = some a then cs.children.erase b else cs.children) ++ [b]).count b = 1
    rw [List.count_append, List.count_eq_zero.2 hbpre]
    simp

/-- C2 witness: attaching B (GUID 1) under A (GUID 0) in the two-root
example registry establishes all four links. -/
theorem add_component_establishes_membership_witness :
    parentOf (BNComponentAddComponent exPair 0 1).2 1 = some 0
    ∧ BNComponentContainsComponent (BNComponentAddComponent exPair 0 1).2 0 1 = true
    ∧ (BNComponentGetContainedComponents (BNComponentAddComponent exPair 0 1).2 0).count 1 = 1
    ∧ (∀ x ∈ (BNComponentAddComponent exPair 0 1).2.comps,
        ∀ y ∈ (BNComponentAddComponent exPair 0 1).2.comps,
          (x.guid ∈ y.children ↔ x.parent = some y.guid)) :=
  add_component_establishes_membership exPair (BNComponentAddComponent exPair 0 1).2 0 1
    (by decide) (by decide)

/-- C3: `add_component(child)` returns false and performs no mutation (the
returned state is the unchanged input state) whenever `child` is the node
itself or the node is already a descendant of `child`; and after any
`add_component` call, successful or not, no node is a descendant (hence an
ancestor) of itself. -/
theorem add_component_rejects_cycles (s : CoreState) (a b : Nat) (hwf : WF s) :
    ((b = a ∨ BNComponentContainsComponent s b a = true) →
        BNComponentAddComponent s a b = (false, s))
    ∧ (∀ r s', BNComponentAddComponent s a b = (r, s') →
        ∀ g, BNComponentContainsComponent s' g g = false) := by
  constructor
  · intro hcyc
    unfold BNComponentAddComponent
    cases hS : findComp s a with
    | none => rfl
    | some cs =>
        cases hC : findComp s b with
        | none => rfl
        | some cc =>
            have hcond : (b == a || BNComponentContainsComponent s b a) = true := by
              rcases hcyc with rfl | hdesc
              · simp
              · simp [hdesc]
            rw [if_pos hcond]
  · intro r s' h g
    cases r with
    | false =>
        have he := addComponent_fail_inv h
        subst he
        exact contains_self_false hwf g
    | true =>
        rcases addComponent_success_inv h with ⟨cs, cc, hself, hchild, hne, hnc, rfl⟩
        exact contains_self_false (attach_WF hwf hself hchild hne hnc) g

/-- C3 witness: in the chain A → B → C, the call `C.add_component(A)` is
rejected with the registry unchanged, and no node of the unchanged registry
is its own descendant. -/
theorem add_component_rejects_cycles_witness :
    BNComponentAddComponent exChain 2 0 = (false, exChain)
    ∧ BNComponentContainsComponent exChain 2 2 = false :=
  ⟨(add_component_rejects_cycles exChain 2 0 (by decide)).1 (Or.inr (by decide)),
   (add_component_rejects_cycles exChain 2 0 (by decide)).2 false exChain (by decide) 2⟩

/-! Small reduction lemmas for the function-membership operations. -/

theorem addFuncRef_of_mem {s : CoreState} {g fid : Nat} {c : CompData}
    (hc : findComp s g = some c) (hmem : fid ∈ c.funcRefs) :
    BNComponentAddFunctionReference s g fid = (true, s) := by
  unfold BNComponentAddFunctionReference
  simp only [hc]
  rw [if_pos hmem]

theorem addFuncRef_of_not_mem {s : CoreState} {g fid : Nat} {c : CompData}
    (hc : findComp s g = some c) (hmem : fid ∉ c.funcRefs) :
    BNComponentAddFunctionReference s g fid
      = (true, updComp s g (fun c0 => { c0 with funcRefs := c0.funcRefs ++ [fid] })) := by
  unfold BNComponentAddFunctionReference
  simp only [hc]
  rw [if_neg hmem]

theorem containsFunction_of_mem {s : CoreState} {g fid : Nat} {c : CompData}
    (hc : findComp s g = some c) (hmem : fid ∈ c.funcRefs) :
    BNComponentContainsFunction s g fid = true := by
  unfold BNComponentContainsFunction
  simp only [hc]
  simp [hmem]

theorem containedFunctions_eq {s : CoreState} {g : Nat} {c : CompData}
    (hc : findComp s g = some c) :
    BNComponentGetContainedFunctions s g = c.funcRefs := by
  unfold BNComponentGetContainedFunctions
  simp only [hc]

/-- C1: two `Component` handles compare equal exactly when their handles
carry the same GUID — equality is decided by GUID identity, never by
instance or structural identity; in particular two distinct wrapper objects
holding distinct handle instances to the same component compare equal. -/
theorem component_eq_iff_same_guid :
    (∀ a b : Component, (Component.eq a b = true ↔ a.handle.guid = b.handle.guid))
    ∧ (∃ a b : Component, a ≠ b ∧ a.handle ≠ b.handle ∧ Component.eq a b = true) := by
  constructor
  · intro a b
    unfold Component.eq BNComponentsEqual
    exact beq_iff_eq
  · refine ⟨{ view := { viewId := 0 }, handle := { guid := 5, instanceId := 1 }, guid := 5 },
      { view := { viewId := 0 }, handle := { guid := 5, instanceId := 2 }, guid := 5 },
      ?_, ?_, ?_⟩ <;> decide

/-- C6: `add_function` is idempotent — adding a function to a registered
node returns true, adding it again returns true and leaves the state
unchanged, and afterwards `contains_function` holds with the function
appearing exactly once in the enumeration read by `functions`. -/
theorem add_function_idempotent (s : CoreState) (g fid : Nat) (c : CompData)
    (hc : findComp s g = some c) (hnd : c.funcRefs.Nodup) :
    (BNComponentAddFunctionReference s g fid).1 = true
    ∧ BNComponentAddFunctionReference (BNComponentAddFunctionReference s g fid).2 g fid
        = (true, (BNComponentAddFunctionReference s g fid).2)
    ∧ BNComponentContainsFunction (BNComponentAddFunctionReference s g fid).2 g fid = true
    ∧ (BNComponentGetContainedFunctions (BNComponentAddFunctionReference s g fid).2 g).count fid
        = 1 := by
  by_cases hmem : fid ∈ c.funcRefs
  · have h1 := addFuncRef_of_mem hc hmem
    rw [h1]
    exact ⟨rfl, h1, containsFunction_of_mem hc hmem,
      by rw [containedFunctions_eq hc]; exact List.count_eq_one_of_mem hnd hmem⟩
  · have h1 := addFuncRef_of_not_mem hc hmem
    have hc2 : findComp (updComp s g (fun c0 => { c0 with funcRefs := c0.funcRefs ++ [fid] })) g
        = some { c with funcRefs := c.funcRefs ++ [fid] } := by
      rw [findComp_updComp_self (f := fun c0 => { c0 with funcRefs := c0.funcRefs ++ [fid] })
        (fun c0 => rfl), hc]
      rfl
    have hmem2 : fid ∈ c.funcRefs ++ [fid] :=
      List.mem_append.2 (Or.inr (List.mem_singleton.2 rfl))
    rw [h1]
    refine ⟨rfl, addFuncRef_of_mem hc2 hmem2, containsFunction_of_mem hc2 hmem2, ?_⟩
    rw [containedFunctions_eq hc2]
    show (c.funcRefs ++ [fid]).count fid = 1
    rw [List.count_append, List.count_eq_zero.2 hmem]
    simp

/-- C6 witness: adding `exFunc` twice to the node B (GUID 1) of the
two-root example registry, where it is already present, keeps the state
fixed, keeps `contains_function` true, and lists the function once. -/
theorem add_function_idempotent_witness :
    (BNComponentAddFunctionReference exPair 1 10).1 = true
    ∧ BNComponentAddFunctionReference (BNComponentAddFunctionReference exPair 1 10).2 1 10
        = (true, (BNComponentAddFunctionReference exPair 1 10).2)
    ∧ BNComponentContainsFunction (BNComponentAddFunctionReference exPair 1 10).2 1 10 = true
    ∧ (BNComponentGetContainedFunctions (BNComponentAddFunctionReference exPair 1 10).2 1).count 10
        = 1 :=
  add_function_idempotent exPair 1 10
    { guid := 1, name := "B", parent := none, children := [], funcRefs := [10] }
    (by decide) (by decide)

/-- C7: `remove_function` on a function that is not a direct member of the
node returns false and is a no-op — the state, hence the membership list and
both non-recursive derived reference queries, are unchanged. -/
theorem remove_function_not_found (s : CoreState) (g fid : Nat)
    (h : BNComponentContainsFunction s g fid = false) :
    BNComponentRemoveFunctionReference s g fid = (false, s)
    ∧ BNComponentGetContainedFunctions (BNComponentRemoveFunctionReference s g fid).2 g
        = BNComponentGetContainedFunctions s g
    ∧ BNComponentGetReferencedDataVariables (BNComponentRemoveFunctionReference s g fid).2 g
        = BNComponentGetReferencedDataVariables s g
    ∧ BNComponentGetReferencedTypes (BNComponentRemoveFunctionReference s g fid).2 g
        = BNComponentGetReferencedTypes s g := by
  have h1 : BNComponentRemoveFunctionReference s g fid = (false, s) := by
    unfold BNComponentRemoveFunctionReference
    unfold BNComponentContainsFunction at h
    cases hc : findComp s g with
    | none => simp only [hc]
    | some c =>
        simp only [hc] at h
        simp only [hc]
        have hnm : fid ∉ c.funcRefs := by
          intro hm
          rw [show c.funcRefs.contains fid = true by simp [hm]] at h
          cases h
        rw [if_neg hnm]
  exact ⟨h1, by rw [h1], by rw [h1], by rw [h1]⟩

/-- C7 witness: removing `exFunc` from node A (GUID 0) of the two-root
example registry, which does not own it, returns false and changes nothing. -/
theorem remove_function_not_found_witness :
    BNComponentRemoveFunctionReference exPair 0 10 = (false, exPair)
    ∧ BNComponentGetContainedFunctions (BNComponentRemoveFunctionReference exPair 0 10).2 0
        = BNComponentGetContainedFunctions exPair 0
    ∧ BNComponentGetReferencedDataVariables (BNComponentRemoveFunctionReference exPair 0 10).2 0
        = BNComponentGetReferencedDataVariables exPair 0
    ∧ BNComponentGetReferencedTypes (BNComponentRemoveFunctionReference exPair 0 10).2 0
        = BNComponentGetReferencedTypes exPair 0 :=
  remove_function_not_found exPair 0 10 (by decide)

/-- C9: a component's GUID is immutable — setting the name rewrites only the
name field (GUID, parent, children and function references of every node are
untouched, as is the function table), and no registry operation ever changes
the stored GUID of any node. -/
theorem guid_immutable_name_only_frame :
    (∀ s g n c, findComp s g = some c →
        findComp (BNComponentSetName s g n) g = some { c with name := n })
    ∧ (∀ s g n x, x ≠ g → findComp (BNComponentSetName s g n) x = findComp s x)
    ∧ (∀ s g n x, (findComp (BNComponentSetName s g n) x).map
          (fun c => (c.guid, c.parent, c.children, c.funcRefs))
        = (findComp s x).map (fun c => (c.guid, c.parent, c.children, c.funcRefs)))
    ∧ (∀ s g n, (BNComponentSetName s g n).funcs = s.funcs)
    ∧ (∀ s g n, (BNComponentSetName s g n).comps.map CompData.guid
        = s.comps.map CompData.guid)
    ∧ (∀ s g fid, (BNComponentAddFunctionReference s g fid).2.comps.map CompData.guid
        = s.comps.map CompData.guid)
    ∧ (∀ s g fid, (BNComponentRemoveFunctionReference s g fid).2.comps.map CompData.guid
        = s.comps.map CompData.guid)
    ∧ (∀ s a b, (BNComponentAddComponent s a b).2.comps.map CompData.guid
        = s.comps.map CompData.guid) := by
  refine ⟨?_, ?_, ?_, fun s g n => rfl, ?_, ?_, ?_, ?_⟩
  · intro s g n c hc
    unfold BNComponentSetName
    rw [findComp_updComp_self (f := fun c0 => { c0 with name := n }) (fun c0 => rfl), hc]
    rfl
  · intro s g n x hx
    unfold BNComponentSetName
    exact findComp_updComp_ne (f := fun c0 => { c0 with name := n }) (fun c0 => rfl) hx
  · intro s g n x
    unfold BNComponentSetName
    rw [findComp_updComp (f := fun c0 => { c0 with name := n }) g (fun c0 => rfl) x]
    cases findComp s x with
    | none => rfl
    | some c =>
        by_cases hcg : c.guid = g
        · simp [hcg]
        · simp [hcg]
  · intro s g n
    exact map_guid_updComp (f := fun c0 => { c0 with name := n }) (fun c0 => rfl)
  · intro s g fid
    unfold BNComponentAddFunctionReference
    cases hc : findComp s g with
    | none => rfl
    | some c =>
        by_cases hmem : fid ∈ c.funcRefs
        · simp only [hc]
          rw [if_pos hmem]
        · simp only [hc]
          rw [if_neg hmem]
          exact map_guid_updComp
            (f := fun c0 => { c0 with funcRefs := c0.funcRefs ++ [fid] }) (fun c0 => rfl)
  · intro s g fid
    unfold BNComponentRemoveFunctionReference
    cases hc : findComp s g with
    | none => rfl
    | some c =>
        by_cases hmem : fid ∈ c.funcRefs
        · simp only [hc]
          rw [if_pos hmem]
          exact map_guid_updComp
            (f := fun c0 => { c0 with funcRefs := c0.funcRefs.filter (fun x => x != fid) })
            (fun c0 => rfl)
        · simp only [hc]
          rw [if_neg hmem]
  · intro s a b
    rcases hr : BNComponentAddComponent s a b with ⟨r, s2⟩
    cases r with
    | false =>
        have he := addComponent_fail_inv hr
        subst he
        rfl
    | true =>
        rcases addComponent_success_inv hr with ⟨cs, cc, _, _, _, _, he⟩
        subst he
        exact attach_map_guid s a b

/-- C10: a `Component` can never be constructed without an owning view and an
existing core handle — construction with a missing view or a missing handle
fails the corresponding assertion, and every successful construction stores
exactly the supplied view and handle and populates `guid` from the core. -/
theorem component_init_requires_view_and_handle :
    (∀ h : Option Handle, Component.init none h
        = Except.error ("Component must have an attached BinaryView"))
    ∧ (∀ v : BinaryView, Component.init (some v) none
        = Except.error ("Cannot create component directly, run bv.create_component"))
    ∧ (∀ (v : Option BinaryView) (h : Option Handle) (c : Component),
        Component.init v h = Except.ok c
          → v = some c.view ∧ h = some c.handle ∧ c.guid = BNComponentGetGuid c.handle) := by
  refine ⟨fun h => rfl, fun v => rfl, ?_⟩
  intro v h c hok
  match v, h with
  | none, h => cases hok
  | some v, none => cases hok
  | some v, some hh =>
      cases hok
      exact ⟨rfl, rfl, rfl⟩

/-! Membership and deduplication lemmas for the derived-reference queries. -/

theorem mem_dedupInto (acc xs : List Nat) (x : Nat) :
    x ∈ dedupInto acc xs ↔ x ∈ acc ∨ x ∈ xs := by
  induction xs generalizing acc with
  | nil => simp [dedupInto]
  | cons y ys ih =>
      show x ∈ dedupInto (if y ∈ acc then acc else acc ++ [y]) ys ↔ _
      rw [ih]
      by_cases hy : y ∈ acc
      · rw [if_pos hy]
        constructor
        · rintro (h | h)
          · exact Or.inl h
          · exact Or.inr (List.mem_cons_of_mem y h)
        · rintro (h | h)
          · exact Or.inl h
          · rcases List.mem_cons.1 h with rfl | h2
            · exact Or.inl hy
            · exact Or.inr h2
      · rw [if_neg hy]
        constructor
        · rintro (h | h)
          · rcases List.mem_append.1 h with h2 | h2
            · exact Or.inl h2
            · exact Or.inr (List.mem_cons.2 (Or.inl (List.mem_singleton.1 h2)))
          · exact Or.inr (List.mem_cons_of_mem y h)
        · rintro (h | h)
          · exact Or.inl (List.mem_append.2 (Or.inl h))
          · rcases List.mem_cons.1 h with rfl | h2
            · exact Or.inl (List.mem_append.2 (Or.inr (List.mem_singleton.2 rfl)))
            · exact Or.inr h2

theorem nodup_dedupInto (acc xs : List Nat) (h : acc.Nodup) :
    (dedupInto acc xs).Nodup := by
  induction xs generalizing acc with
  | nil => exact h
  | cons y ys ih =>
      show (dedupInto (if y ∈ acc then acc else acc ++ [y]) ys).Nodup
      apply ih
      by_cases hy : y ∈ acc
      · rw [if_pos hy]
        exact h
      · rw [if_neg hy]
        rw [List.nodup_append]
        refine ⟨h, List.nodup_singleton y, ?_⟩
        intro a ha hamem
        rw [List.mem_singleton] at hamem
        subst hamem
        exact hy ha

theorem mem_foldl_dedupInto (f : Nat → List Nat) (l acc : List Nat) (x : Nat) :
    x ∈ l.foldl (fun a h => dedupInto a (f h)) acc ↔ x ∈ acc ∨ ∃ h ∈ l, x ∈ f h := by
  induction l generalizing acc with
  | nil => simp
  | cons y ys ih =>
      show x ∈ ys.foldl (fun a h => dedupInto a (f h)) (dedupInto acc (f y)) ↔ _
      rw [ih, mem_dedupInto]
      constructor
      · rintro ((h | h) | ⟨z, hz, hx⟩)
        · exact Or.inl h
        · exact Or.inr ⟨y, List.mem_cons_self y ys, h⟩
        · exact Or.inr ⟨z, List.mem_cons_of_mem y hz, hx⟩
      · rintro (h | ⟨z, hz, hx⟩)
        · exact Or.inl (Or.inl h)
        · rcases List.mem_cons.1 hz with rfl | h2
          · exact Or.inl (Or.inr hx)
          · exact Or.inr ⟨z, h2, hx⟩

theorem nodup_foldl_dedupInto (f : Nat → List Nat) (l acc : List Nat) (h : acc.Nodup) :
    (l.foldl (fun a h => dedupInto a (f h)) acc).Nodup := by
  induction l generalizing acc with
  | nil => exact h
  | cons y ys ih =>
      show (ys.foldl (fun a h => dedupInto a (f h)) (dedupInto acc (f y))).Nodup
      exact ih _ (nodup_dedupInto acc (f y) h)

theorem mem_funcOut (s : CoreState) (proj : Func → List Nat) (fid x : Nat) :
    x ∈ funcOut s proj fid ↔ ∃ f, funcById s fid = some f ∧ x ∈ proj f := by
  unfold funcOut
  cases hf : funcById s fid with
  | none => simp
  | some f => simp

theorem mem_directRefs {s : CoreState} {g : Nat} {c : CompData} (proj : Func → List Nat)
    (hc : findComp s g = some c) (x : Nat) :
    x ∈ directRefs s proj g ↔ ∃ fid ∈ c.funcRefs, x ∈ funcOut s proj fid := by
  unfold directRefs
  simp only [hc]
  rw [mem_foldl_dedupInto]
  simp

theorem directRefs_none {s : CoreState} {g : Nat} (proj : Func → List Nat)
    (hc : findComp s g = none) : directRefs s proj g = [] := by
  unfold directRefs
  simp only [hc]

theorem nodup_directRefs (s : CoreState) (proj : Func → List Nat) (g : Nat) :
    (directRefs s proj g).Nodup := by
  unfold directRefs
  cases hc : findComp s g with
  | none => exact List.nodup_nil
  | some c => exact nodup_foldl_dedupInto _ _ _ List.nodup_nil

theorem mem_recursiveRefs (s : CoreState) (proj : Func → List Nat) (g x : Nat) :
    x ∈ recursiveRefs s proj g ↔ ∃ h ∈ subtreeGuids s g, x ∈ directRefs s proj h := by
  unfold recursiveRefs
  rw [mem_foldl_dedupInto]
  simp

theorem nodup_recursiveRefs (s : CoreState) (proj : Func → List Nat) (g : Nat) :
    (recursiveRefs s proj g).Nodup :=
  nodup_foldl_dedupInto _ _ _ List.nodup_nil

/-- C4: the non-recursive reference queries return exactly the data
variables / types referenced by the node's directly-owned functions, the
recursive forms return the deduplicated union of the per-node results over
the whole subtree, and in the chain A → B → C where only C owns a function
referencing data variable 100 and type 7, the recursive query on A includes
them while the non-recursive one does not. -/
theorem referenced_queries_direct_vs_recursive :
    (∀ (s : CoreState) (g : Nat) (c : CompData) (d : Nat), findComp s g = some c →
        (d ∈ BNComponentGetReferencedDataVariables s g
          ↔ ∃ fid ∈ c.funcRefs, ∃ f, funcById s fid = some f ∧ d ∈ f.dataVars))
    ∧ (∀ (s : CoreState) (g : Nat) (c : CompData) (t : Nat), findComp s g = some c →
        (t ∈ BNComponentGetReferencedTypes s g
          ↔ ∃ fid ∈ c.funcRefs, ∃ f, funcById s fid = some f ∧ t ∈ f.typeRefs))
    ∧ (∀ (s : CoreState) (g d : Nat),
        d ∈ BNComponentGetReferencedDataVariablesRecursive s g
          ↔ ∃ h ∈ subtreeGuids s g, d ∈ BNComponentGetReferencedDataVariables s h)
    ∧ (∀ (s : CoreState) (g t : Nat),
        t ∈ BNComponentGetReferencedTypesRecursive s g
          ↔ ∃ h ∈ subtreeGuids s g, t ∈ BNComponentGetReferencedTypes s h)
    ∧ (∀ (s : CoreState) (g : Nat),
        (BNComponentGetReferencedDataVariables s g).Nodup
        ∧ (BNComponentGetReferencedTypes s g).Nodup
        ∧ (BNComponentGetReferencedDataVariablesRecursive s g).Nodup
        ∧ (BNComponentGetReferencedTypesRecursive s g).Nodup)
    ∧ (7 ∈ Component.get_referenced_types exChain (exComp 0) true
        ∧ 7 ∉ Component.get_referenced_types exChain (exComp 0) false
        ∧ 100 ∈ Component.get_referenced_data_variables exChain (exComp 0) true
        ∧ 100 ∉ Component.get_referenced_data_variables exChain (exComp 0) false) := by
  refine ⟨?_, ?_, ?_, ?_, ?_, by decide⟩
  · intro s g c d hc
    unfold BNComponentGetReferencedDataVariables
    rw [mem_directRefs Func.dataVars hc]
    constructor
    · rintro ⟨fid, hfid, hout⟩
      rcases (mem_funcOut s Func.dataVars fid d).1 hout with ⟨f, hf, hd⟩
      exact ⟨fid, hfid, f, hf, hd⟩
    · rintro ⟨fid, hfid, f, hf, hd⟩
      exact ⟨fid, hfid, (mem_funcOut s Func.dataVars fid d).2 ⟨f, hf, hd⟩⟩
  · intro s g c t hc
    unfold BNComponentGetReferencedTypes
    rw [mem_directRefs Func.typeRefs hc]
    constructor
    · rintro ⟨fid, hfid, hout⟩
      rcases (mem_funcOut s Func.typeRefs fid t).1 hout with ⟨f, hf, ht⟩
      exact ⟨fid, hfid, f, hf, ht⟩
    · rintro ⟨fid, hfid, f, hf, ht⟩
      exact ⟨fid, hfid, (mem_funcOut s Func.typeRefs fid t).2 ⟨f, hf, ht⟩⟩
  · intro s g d
    exact mem_recursiveRefs s Func.dataVars g d
  · intro s g t
    exact mem_recursiveRefs s Func.typeRefs g t
  · intro s g
    exact ⟨nodup_directRefs s Func.dataVars g, nodup_directRefs s Func.typeRefs g,
      nodup_recursiveRefs s Func.dataVars g, nodup_recursiveRefs s Func.typeRefs g⟩

/-- C5: removing the one function that alone contributes data variable `d`
and type `t` to a node succeeds and drops `d` and `t` from the node's
non-recursive derived reference queries. -/
theorem remove_function_cascades (s : CoreState) (g fid d t : Nat) (c : CompData)
    (hc : findComp s g = some c) (hmem : fid ∈ c.funcRefs)
    (_hfd : d ∈ funcOut s Func.dataVars fid) (_hft : t ∈ funcOut s Func.typeRefs fid)
    (hd : ∀ fid2 ∈ c.funcRefs, fid2 ≠ fid → d ∉ funcOut s Func.dataVars fid2)
    (ht : ∀ fid2 ∈ c.funcRefs, fid2 ≠ fid → t ∉ funcOut s Func.typeRefs fid2) :
    (BNComponentRemoveFunctionReference s g fid).1 = true
    ∧ d ∉ BNComponentGetReferencedDataVariables
        (BNComponentRemoveFunctionReference s g fid).2 g
    ∧ t ∉ BNComponentGetReferencedTypes
        (BNComponentRemoveFunctionReference s g fid).2 g := by
  have h1 : BNComponentRemoveFunctionReference s g fid
      = (true, updComp s g
          (fun c0 => { c0 with funcRefs := c0.funcRefs.filter (fun x => x != fid) })) := by
    unfold BNComponentRemoveFunctionReference
    simp only [hc]
    rw [if_pos hmem]
  have hc2 : findComp (updComp s g
        (fun c0 => { c0 with funcRefs := c0.funcRefs.filter (fun x => x != fid) })) g
      = some { c with funcRefs := c.funcRefs.filter (fun x => x != fid) } := by
    rw [findComp_updComp_self
      (f := fun c0 => { c0 with funcRefs := c0.funcRefs.filter (fun x => x != fid) })
      (fun c0 => rfl), hc]
    rfl
  rw [h1]
  refine ⟨rfl, ?_, ?_⟩
  · intro hdm
    unfold BNComponentGetReferencedDataVariables at hdm
    rw [mem_directRefs Func.dataVars hc2] at hdm
    rcases hdm with ⟨fid2, hfid2, hout⟩
    have hfid2' : fid2 ∈ c.funcRefs.filter (fun x => x != fid) := hfid2
    rw [List.mem_filter] at hfid2'
    obtain ⟨hmem2, hne2⟩ := hfid2'
    rw [bne_iff_ne] at hne2
    exact hd fid2 hmem2 hne2 hout
  · intro htm
    unfold BNComponentGetReferencedTypes at htm
    rw [mem_directRefs Func.typeRefs hc2] at htm
    rcases htm with ⟨fid2, hfid2, hout⟩
    have hfid2' : fid2 ∈ c.funcRefs.filter (fun x => x != fid) := hfid2
    rw [List.mem_filter] at hfid2'
    obtain ⟨hmem2, hne2⟩ := hfid2'
    rw [bne_iff_ne] at hne2
    exact ht fid2 hmem2 hne2 hout

/-- C5 witness: removing `exFunc` (the sole function of node B, GUID 1,
contributing data variable 100 and type 7) from B in the two-root example
registry succeeds and drops both references from the non-recursive queries. -/
theorem remove_function_cascades_witness :
    (BNComponentRemoveFunctionReference exPair 1 10).1 = true
    ∧ 100 ∉ BNComponentGetReferencedDataVariables
        (BNComponentRemoveFunctionReference exPair 1 10).2 1
    ∧ 7 ∉ BNComponentGetReferencedTypes
        (BNComponentRemoveFunctionReference exPair 1 10).2 1 :=
  remove_function_cascades exPair 1 10 100 7
    { guid := 1, name := "B", parent := none, children := [], funcRefs := [10] }
    (by decide) (by decide) (by decide) (by decide) (by decide) (by decide)

/-- C8: the `components` and `functions` properties allocate iterators that
hold only the component reference, so the sequence produced at iteration
start is exactly the node's current direct-children / direct-function list
(finite: its length is bounded by the registry size for children under
well-formedness), and restarting the same iterator after a mutation re-reads
the mutated registry rather than replaying a snapshot, as the successful
attach scenario shows. -/
theorem iterators_read_current_state :
    (∀ (s : CoreState) (c : Component),
        SubComponentIterator.iterStart s c.components
          = BNComponentGetContainedComponents s c.handle.guid)
    ∧ (∀ (s : CoreState) (c : Component),
        FunctionIterator.iterStart s c.functions
          = BNComponentGetContainedFunctions s c.handle.guid)
    ∧ (∀ (s : CoreState) (c : Component), WF s →
        (SubComponentIterator.iterStart s c.components).length ≤ s.comps.length)
    ∧ (SubComponentIterator.iterStart exPair (exComp 0).components = []
        ∧ (BNComponentAddComponent exPair 0 1).1 = true
        ∧ SubComponentIterator.iterStart (BNComponentAddComponent exPair 0 1).2
            (exComp 0).components = [1]
        ∧ FunctionIterator.iterStart exPair (exComp 0).functions = []
        ∧ FunctionIterator.iterStart (BNComponentAddFunctionReference exPair 0 10).2
            (exComp 0).functions = [10]) := by
  refine ⟨fun s c => rfl, fun s c => rfl, ?_, by decide⟩
  intro s c hwf
  show (childrenOf s c.handle.guid).length ≤ s.comps.length
  unfold childrenOf
  cases hc : findComp s c.handle.guid with
  | none => simp
  | some c0 =>
      obtain ⟨hmem, _⟩ := findComp_some hc
      have hnd := hwf.2.1 c0 hmem
      have hsub : c0.children ⊆ s.comps.map CompData.guid := by
        intro ch hch
        rw [← exists_guid_mem]
        exact hwf.2.2.2.1 c0 hmem ch hch
      have := (hnd.subperm hsub).length_le
      rw [List.length_map] at this
      exact this
